import Mathlib

/-!
Verification of the derived-calculation layer of the `mysticml` ephemeris
server against its specification.

The TypeScript source is shallowly embedded: JavaScript numbers are modelled
as either NaN or an exact rational (`JsNum`), the JavaScript `%` operator
(truncated fmod) is `jsfmod`, and the external position provider is an
explicit function argument.  Each embedded definition is annotated with the
source function it was translated from.
-/

namespace MysticML

/-- A JavaScript number: either NaN or a (finite) numeric value, modelled as
an exact rational. -/
inductive JsNum where
  | nan : JsNum
  | num (q : ℚ) : JsNum
  deriving DecidableEq, Repr

/-- The `isNaN(x)` test from JavaScript. -/
def JsNum.isNaN : JsNum → Bool
  | .nan => true
  | .num _ => false

/-- JavaScript `<` against a numeric constant: comparisons with NaN are false. -/
def JsNum.lt : JsNum → ℚ → Bool
  | .nan, _ => false
  | .num q, c => decide (q < c)

/-- JavaScript `>` against a numeric constant: comparisons with NaN are false. -/
def JsNum.gt : JsNum → ℚ → Bool
  | .nan, _ => false
  | .num q, c => decide (q > c)

/-- The `ValidationResult` record from `ephemeris-core.ts`: `{ isValid, error? }`. -/
structure ValidationResult where
  isValid : Bool
  error : Option String := none
  deriving DecidableEq, Repr

/-- `validateCoordinates` from `ephemeris-core.ts` (lines 91-108), translated
clause by clause from the source. -/
def validateCoordinates (latitude longitude : JsNum) : ValidationResult :=
  if latitude.isNaN || longitude.isNaN then
    { isValid := false, error := some "Invalid latitude or longitude" }
  else if latitude.lt (-90) || latitude.gt 90 then
    { isValid := false, error := some "Latitude must be between -90 and 90" }
  else if longitude.lt (-180) || longitude.gt 180 then
    { isValid := false, error := some "Longitude must be between -180 and 180" }
  else
    { isValid := true }

/-- The validator as the specification words it: NaN in either coordinate is
rejected first, then a latitude out of [-90,90], then a longitude out of
[-180,180]; in-range finite values are accepted.  Written from the spec text
for comparison with the source translation `validateCoordinates`. -/
def validateCoordinatesSpec (latitude longitude : JsNum) : ValidationResult :=
  match latitude, longitude with
  | .nan, _ => { isValid := false, error := some "Invalid latitude or longitude" }
  | _, .nan => { isValid := false, error := some "Invalid latitude or longitude" }
  | .num lat, .num lon =>
    if lat < -90 ∨ lat > 90 then
      { isValid := false, error := some "Latitude must be between -90 and 90" }
    else if lon < -180 ∨ lon > 180 then
      { isValid := false, error := some "Longitude must be between -180 and 180" }
    else
      { isValid := true }

/-- JavaScript truncation toward zero (the integer part used by `%`). -/
def jstrunc (q : ℚ) : ℤ :=
  if 0 ≤ q then ⌊q⌋ else ⌈q⌉

/-- The JavaScript `%` operator on numbers: `a % b = a - b * trunc(a / b)`;
the sign of the result follows the dividend. -/
def jsfmod (a b : ℚ) : ℚ :=
  a - b * jstrunc (a / b)

/-- The expression `((lon % 360) + 360) % 360`, the longitude normalization
used by the Zodiac Mapper (`getZodiacSign`). -/
def normLon (lon : ℚ) : ℚ :=
  jsfmod (jsfmod lon 360 + 360) 360

/-- The `movement` value of `comparePositions`
(`((pos2 - pos1 + 540) % 360) - 180`). -/
def movement (pos1 pos2 : ℚ) : ℚ :=
  jsfmod (pos2 - pos1 + 540) 360 - 180

/-- The rounding `Math.round(x * 1000) / 1000`; JavaScript `Math.round` is
`floor(x + 0.5)`. -/
def round3 (q : ℚ) : ℚ :=
  (⌊q * 1000 + 1/2⌋ : ℚ) / 1000

/-- The rounding `Math.round(x * 100) / 100`. -/
def round2 (q : ℚ) : ℚ :=
  (⌊q * 100 + 1/2⌋ : ℚ) / 100

/-- The `signs` table of `getZodiacSign`. -/
def zodiacSigns : List String :=
  ["Aries", "Taurus", "Gemini", "Cancer", "Leo", "Virgo",
   "Libra", "Scorpio", "Sagittarius", "Capricorn", "Aquarius", "Pisces"]

/-- JavaScript array indexing with an integer index: out-of-range access
yields `undefined`, modelled as `none`. -/
def jsIndex (l : List String) (i : ℤ) : Option String :=
  if 0 ≤ i then l.get? i.toNat else none

/-- The output record of `getZodiacSign`. -/
structure ZodiacInfo where
  longitude : ℚ
  sign : Option String
  degree : ℚ
  position : String
  deriving DecidableEq, Repr

/-- The derived-calculation core of `getZodiacSign` (`mcp-server.ts` lines
501-535), as a function of the body's apparent longitude: normalize to
[0,360), look the sign up in the table with the index clamped to the last
entry, and take `degree = normalized % 30`. -/
def getZodiacSign (apparentLongitude : ℚ) : ZodiacInfo :=
  let longitude := normLon apparentLongitude
  let signIdx := ⌊longitude / 30⌋
  let degree := jsfmod longitude 30
  let sign := jsIndex zodiacSigns (min signIdx ((zodiacSigns.length : ℤ) - 1))
  { longitude := round3 longitude
    sign := sign
    degree := round3 degree
    position := toString ⌊degree⌋ ++ "° " ++ sign.getD "undefined" }

/-- JavaScript truthiness test on an optional number, as in
`!result.sun?.apparentLongitude`: `undefined`, `NaN` and `0` are all falsy. -/
def jsFalsy : Option JsNum → Bool
  | none => true
  | some .nan => true
  | some (.num q) => decide (q = 0)

/-- Numeric value of an optional JavaScript number (only used after a
truthiness guard, where the value is a nonzero number). -/
def jsVal : Option JsNum → ℚ
  | some (.num q) => q
  | _ => 0

/-- The 8-way phase-name partition of `getMoonPhase`. -/
def phaseName (elongation : ℚ) : String :=
  if elongation < 22.5 ∨ elongation ≥ 337.5 then "New Moon"
  else if elongation < 67.5 then "Waxing Crescent"
  else if elongation < 112.5 then "First Quarter"
  else if elongation < 157.5 then "Waxing Gibbous"
  else if elongation < 202.5 then "Full Moon"
  else if elongation < 247.5 then "Waning Gibbous"
  else if elongation < 292.5 then "Third Quarter"
  else "Waning Crescent"

/-- Output record of `getMoonPhase` (illumination, a transcendental value, is
computed separately by `illumination` from the phase angle). -/
structure MoonPhaseInfo where
  phase : String
  elongation : ℚ
  phase_angle : ℚ
  sun_longitude : ℚ
  moon_longitude : ℚ
  deriving DecidableEq, Repr

/-- The derived-calculation core of `getMoonPhase` (`mcp-server.ts` lines
296-361) as a function of the provider's sun/moon apparent longitudes.  The
guard is the source's truthiness test
`!result.sun?.apparentLongitude || !result.moon?.apparentLongitude`. -/
def getMoonPhase (sun moon : Option JsNum) : Except String MoonPhaseInfo :=
  if jsFalsy sun || jsFalsy moon then
    .error "Failed to calculate sun or moon position"
  else
    let sunLon := jsVal sun
    let moonLon := jsVal moon
    let elongation := jsfmod (moonLon - sunLon + 360) 360
    let phaseAngle := |180 - elongation|
    .ok { phase := phaseName elongation
          elongation := round2 elongation
          phase_angle := round2 phaseAngle
          sun_longitude := round2 sunLon
          moon_longitude := round2 moonLon }

/-- The expression `illumination = (1 + cos(phase_angle·π/180)) / 2 · 100`
from `getMoonPhase`. -/
noncomputable def illumination (phaseAngle : ℝ) : ℝ :=
  ((1 + Real.cos (phaseAngle * Real.pi / 180)) / 2) * 100

/-- The closed body set of `ephemeris-core.ts`. -/
inductive CelestialBody where
  | sun | moon | mercury | venus | earth | mars | jupiter
  | saturn | uranus | neptune | pluto | chiron | sirius
  deriving DecidableEq, Repr

/-- The `ALL_BODIES` list in source order. -/
def ALL_BODIES : List CelestialBody :=
  [.sun, .moon, .mercury, .venus, .earth, .mars, .jupiter,
   .saturn, .uranus, .neptune, .pluto, .chiron, .sirius]

/-- The expression `bodies && bodies.length > 0 ? bodies : ALL_BODIES` from
`calculateEphemeris`. -/
def effectiveBodies (bodies : Option (List CelestialBody)) : List CelestialBody :=
  match bodies with
  | some bs => if bs.length > 0 then bs else ALL_BODIES
  | none => ALL_BODIES

/-- `calculateEphemeris` from `ephemeris-core.ts` (lines 114-152).  The
external position provider (the `Ephemeris` constructor, out of scope) is an
explicit argument mapping each body to its position record or to `none` when
`ephemeris[body]?.position` is missing.  The result map is an association
list in insertion order; an entry with value `none` is the explicit
`results[body] = undefined` absence marker. -/
def calculateEphemeris {P : Type} (provider : CelestialBody → Option P)
    (latitude longitude : JsNum) (bodies : Option (List CelestialBody)) :
    Except String (List (CelestialBody × Option P)) :=
  let validation := validateCoordinates latitude longitude
  if validation.isValid then
    .ok ((effectiveBodies bodies).map (fun body =>
      match provider body with
      | some pos => (body, some pos)
      | none => (body, none)))
  else
    .error (validation.error.getD "undefined")

/-- An aspect record as produced by `calculateAspects`; bodies are abstract
identifiers (the source uses body-name strings). -/
structure Aspect where
  body1 : ℕ
  body2 : ℕ
  aspect : String
  angle : ℚ
  orb : ℚ
  exactFlag : Bool
  deriving DecidableEq, Repr

/-- The `majorAspects` table of `calculateAspects`. -/
def majorAspects : List (String × ℚ) :=
  [("conjunction", 0), ("sextile", 60), ("square", 90),
   ("trine", 120), ("opposition", 180)]

/-- The inner loop body of `calculateAspects` for one ordered body pair:
normalize the separation to [0,180] and emit one record per table entry
within the orb. -/
def pairAspects (orb : ℚ) (e1 e2 : ℕ × ℚ) : List Aspect :=
  let angle := |e1.2 - e2.2|
  let normalizedAngle := if angle > 180 then 360 - angle else angle
  majorAspects.filterMap (fun a =>
    let o := |normalizedAngle - a.2|
    if o ≤ orb then
      some { body1 := e1.1, body2 := e2.1, aspect := a.1,
             angle := normalizedAngle, orb := o, exactFlag := decide (o < 1) }
    else none)

/-- All ordered pairs (i, j) with i strictly before j, in the double-loop
order of `calculateAspects`. -/
def allPairs {α : Type} : List α → List (α × α)
  | [] => []
  | x :: xs => xs.map (fun y => (x, y)) ++ allPairs xs

/-- `calculateAspects` (`mcp-server.ts` lines 238-275) over the extracted
body/longitude list: fewer than 2 usable longitudes is an error, otherwise
the double loop over ordered pairs against the aspect table. -/
def calculateAspects (orb : ℚ) (positions : List (ℕ × ℚ)) :
    Except String (List Aspect) :=
  if positions.length < 2 then
    .error "Need at least 2 bodies with valid positions to calculate aspects"
  else
    .ok ((allPairs positions).flatMap (fun p => pairAspects orb p.1 p.2))

/-- The two body identifiers in ascending order. -/
def sortPair (x y : ℕ) : ℕ × ℕ :=
  if x ≤ y then (x, y) else (y, x)

/-- An aspect record up to the orientation of its body pair: the unordered
body pair together with the aspect name, angle, orb and exactness flag. -/
def unorderedView (a : Aspect) : (ℕ × ℕ) × String × ℚ × ℚ × Bool :=
  (sortPair a.body1 a.body2, a.aspect, a.angle, a.orb, a.exactFlag)

/-- The per-claim relation for C6: two aspect-analysis outcomes agree when
they fail with the same error or succeed with the same multiset of
orientation-independent aspect records. -/
def sameAspectOutcome : Except String (List Aspect) → Except String (List Aspect) → Prop
  | .error e1, .error e2 => e1 = e2
  | .ok a1, .ok a2 => (a1.map unorderedView).Perm (a2.map unorderedView)
  | _, _ => False

/-- Event kinds of the Daily Event Scanner. -/
inductive EventKind where
  | rising | setting | culmination
  deriving DecidableEq, Repr

/-- An event record of `getDailyEvents`; `time` is the index of the 15-minute
sample (standing for the sample's ISO timestamp, which increases with the
index within the scanned day). -/
structure Event where
  event : EventKind
  time : ℕ
  altitude : ℚ
  azimuth : ℚ
  deriving DecidableEq, Repr

/-- The horizon-crossing emission of one loop iteration of `getDailyEvents`:
with a previous altitude on record, emit `rising` on a strict minus-to-plus
change and `setting` on a strict plus-to-minus change. -/
def emittedEvents (previousAltitude : Option ℚ) (idx : ℕ) (alt az : ℚ) : List Event :=
  match previousAltitude with
  | none => []
  | some p =>
    if p < 0 ∧ 0 < alt then [⟨.rising, idx, round2 alt, round2 az⟩]
    else if 0 < p ∧ alt < 0 then [⟨.setting, idx, round2 alt, round2 az⟩]
    else []

/-- Result of the sampling loop of `getDailyEvents`: the emitted events in
emission order plus the running-maximum state. -/
structure ScanResult where
  events : List Event
  maxAltitude : ℚ
  maxAltitudeTime : Option ℕ
  deriving DecidableEq, Repr

/-- The sampling loop of `getDailyEvents` (`mcp-server.ts` lines 385-432).
Each list entry is one 15-minute sample: `none` when the provider's
altitude/azimuth are missing or non-numeric (the `continue` branches), and
`some (altitude, azimuth)` otherwise. -/
def scanGo (idx : ℕ) (previousAltitude : Option ℚ) (maxAltitude : ℚ)
    (maxAltitudeTime : Option ℕ) : List (Option (ℚ × ℚ)) → ScanResult
  | [] => ⟨[], maxAltitude, maxAltitudeTime⟩
  | none :: rest => scanGo (idx + 1) previousAltitude maxAltitude maxAltitudeTime rest
  | some (alt, az) :: rest =>
    let maxAltitude' := if alt > maxAltitude then alt else maxAltitude
    let maxAltitudeTime' := if alt > maxAltitude then some idx else maxAltitudeTime
    let r := scanGo (idx + 1) (some alt) maxAltitude' maxAltitudeTime' rest
    ⟨emittedEvents previousAltitude idx alt az ++ r.events, r.maxAltitude, r.maxAltitudeTime⟩

/-- The post-scan culmination push of `getDailyEvents`:
`events.push({event: "culmination", ...})` guarded by
`maxAltitudeTime && maxAltitude > 0`, with azimuth fixed at 180. -/
def culminationEvents (r : ScanResult) : List Event :=
  match r.maxAltitudeTime with
  | some t =>
    if r.maxAltitude > 0 then [Event.mk .culmination t (round2 r.maxAltitude) 180]
    else []
  | none => []

/-- `getDailyEvents` (`mcp-server.ts` lines 377-465) after the provider calls
are abstracted into the per-sample list: run the scan with
`previousAltitude = null`, `maxAltitude = -90`, `maxAltitudeTime = null`,
append one culmination at the maximum if it is above the horizon, sort by
time and keep the first 6. -/
def getDailyEvents (samples : List (Option (ℚ × ℚ))) : List Event :=
  let r := scanGo 0 none (-90) none samples
  ((r.events ++ culminationEvents r).mergeSort (fun a b => decide (a.time ≤ b.time))).take 6

/-- The valid samples, with their indices, in scan order: the pairs the
loop's sliding-window comparison actually sees. -/
def validSamples (idx : ℕ) : List (Option (ℚ × ℚ)) → List (ℕ × ℚ × ℚ)
  | [] => []
  | none :: rest => validSamples (idx + 1) rest
  | some (alt, az) :: rest => (idx, alt, az) :: validSamples (idx + 1) rest

/-- Consecutive pairs of a list. -/
def consecPairs {α : Type} (l : List α) : List (α × α) :=
  l.zip l.tail

theorem jstrunc_of_nonneg {q : ℚ} (h : 0 ≤ q) : jstrunc q = ⌊q⌋ := by
  simp [jstrunc, h]

theorem jstrunc_neg (q : ℚ) : jstrunc (-q) = -(jstrunc q) := by
  rcases lt_trichotomy q 0 with h | h | h
  · have h1 : ¬ (0 ≤ q) := not_le.mpr h
    have h2 : 0 ≤ -q := by linarith
    simp [jstrunc, h1, h2, Int.floor_neg]
  · simp [h, jstrunc]
  · have h1 : 0 ≤ q := le_of_lt h
    have h2 : ¬ (0 ≤ -q) := by simp; linarith
    simp [jstrunc, h1, h2, Int.ceil_neg]

theorem jsfmod_neg (a b : ℚ) : jsfmod (-a) b = -(jsfmod a b) := by
  simp only [jsfmod, neg_div, jstrunc_neg]
  push_cast
  ring

theorem jsfmod_eq_fract {a b : ℚ} (ha : 0 ≤ a) (hb : 0 < b) :
    jsfmod a b = b * Int.fract (a / b) := by
  have hq : 0 ≤ a / b := div_nonneg ha (le_of_lt hb)
  rw [jsfmod, jstrunc_of_nonneg hq, Int.fract, mul_sub,
    mul_div_cancel₀ _ (ne_of_gt hb)]

theorem jsfmod_nonneg {a b : ℚ} (ha : 0 ≤ a) (hb : 0 < b) : 0 ≤ jsfmod a b := by
  rw [jsfmod_eq_fract ha hb]
  exact mul_nonneg (le_of_lt hb) (Int.fract_nonneg _)

theorem jsfmod_lt {a b : ℚ} (ha : 0 ≤ a) (hb : 0 < b) : jsfmod a b < b := by
  rw [jsfmod_eq_fract ha hb]
  calc b * Int.fract (a / b) < b * 1 := by
        exact mul_lt_mul_of_pos_left (Int.fract_lt_one _) hb
    _ = b := mul_one b

theorem jsfmod_bounds {b : ℚ} (a : ℚ) (hb : 0 < b) : -b < jsfmod a b ∧ jsfmod a b < b := by
  rcases le_or_lt 0 a with ha | ha
  · exact ⟨lt_of_lt_of_le (neg_lt_zero.mpr hb) (jsfmod_nonneg ha hb),
      jsfmod_lt ha hb⟩
  · have ha' : 0 ≤ -a := by linarith
    have h1 := jsfmod_nonneg ha' hb
    have h2 := jsfmod_lt ha' hb
    have : jsfmod a b = -(jsfmod (-a) b) := by
      rw [← jsfmod_neg, neg_neg]
    rw [this]
    constructor <;> linarith

theorem jsfmod_sub_int_mul (a b : ℚ) : ∃ n : ℤ, jsfmod a b = a - b * n :=
  ⟨jstrunc (a / b), rfl⟩

theorem normLon_nonneg (lon : ℚ) : 0 ≤ normLon lon := by
  have h := (jsfmod_bounds lon (show (0:ℚ) < 360 by norm_num)).1
  exact jsfmod_nonneg (by linarith) (by norm_num)

theorem normLon_lt (lon : ℚ) : normLon lon < 360 := by
  have h := (jsfmod_bounds lon (show (0:ℚ) < 360 by norm_num)).1
  exact jsfmod_lt (by linarith) (by norm_num)

theorem normLon_sub_int_mul (lon : ℚ) : ∃ n : ℤ, normLon lon = lon - 360 * n := by
  obtain ⟨n1, h1⟩ := jsfmod_sub_int_mul lon 360
  obtain ⟨n2, h2⟩ := jsfmod_sub_int_mul (jsfmod lon 360 + 360) 360
  refine ⟨n1 + n2 - 1, ?_⟩
  rw [normLon, h2, h1]
  push_cast
  ring

/-- The normalization is invariant under adding whole turns. -/
theorem normLon_period (lon : ℚ) (k : ℤ) : normLon (lon + 360 * k) = normLon lon := by
  obtain ⟨n1, h1⟩ := normLon_sub_int_mul (lon + 360 * k)
  obtain ⟨n2, h2⟩ := normLon_sub_int_mul lon
  have hb1 := normLon_nonneg (lon + 360 * k)
  have hb2 := normLon_lt (lon + 360 * k)
  have hb3 := normLon_nonneg lon
  have hb4 := normLon_lt lon
  have key : normLon (lon + 360 * k) - normLon lon = 360 * ((k - n1 + n2 : ℤ) : ℚ) := by
    rw [h1, h2]
    push_cast
    ring
  have hlt : ((k - n1 + n2 : ℤ) : ℚ) < 1 := by nlinarith
  have hgt : (-1 : ℚ) < ((k - n1 + n2 : ℤ) : ℚ) := by nlinarith
  have : (k - n1 + n2 : ℤ) = 0 := by exact_mod_cast
    (by constructor <;> [exact_mod_cast hgt; exact_mod_cast hlt] :
      -1 < (k - n1 + n2 : ℤ) ∧ (k - n1 + n2 : ℤ) < 1) |>.elim (fun a b => by omega)
  rw [this] at key
  push_cast at key
  linarith

/-- C1 (amended): for positions in [0,360) the movement value lies in
[-180, 180): it is at least -180 (the value -180 is attained, e.g. at
pos1 = 0, pos2 = 180) and strictly below 180. -/
theorem movement_bounds (pos1 pos2 : ℚ)
    (h1 : 0 ≤ pos1) (h1' : pos1 < 360) (h2 : 0 ≤ pos2) (h2' : pos2 < 360) :
    -180 ≤ movement pos1 pos2 ∧ movement pos1 pos2 < 180 := by
  have ha : (0:ℚ) ≤ pos2 - pos1 + 540 := by linarith
  have hb : (0:ℚ) < 360 := by norm_num
  have hlo := jsfmod_nonneg ha hb
  have hhi := jsfmod_lt ha hb
  constructor <;> (unfold movement; linarith)

/-- Witness: the amended C1 bound at pos1 = 10, pos2 = 350 (the §8 scenario,
movement = -20). -/
theorem movement_bounds_witness :
    -180 ≤ movement 10 350 ∧ movement 10 350 < 180 :=
  movement_bounds 10 350 (by norm_num) (by norm_num) (by norm_num) (by norm_num)

/-- C1 counterexample: at pos1 = 0, pos2 = 180 (both in [0,360)) the movement
is exactly -180, which does not lie in the claimed open-below interval
(-180, 180]. -/
theorem movement_not_in_open_interval :
    movement 0 180 = -180 ∧ ¬ (-180 < movement 0 180) := by
  have h : movement 0 180 = -180 := by
    norm_num [movement, jsfmod, jstrunc]
  exact ⟨h, by rw [h]; norm_num⟩

/-- C4: the Coordinate Validator checks NaN first, then the latitude range,
then the longitude range, the first failing rule winning, and accepts
otherwise — the source validator coincides with the rule order the
specification describes. -/
theorem validateCoordinates_eq_spec (latitude longitude : JsNum) :
    validateCoordinates latitude longitude = validateCoordinatesSpec latitude longitude := by
  cases latitude with
  | nan => cases longitude <;> rfl
  | num lat =>
    cases longitude with
    | nan => rfl
    | num lon =>
      simp only [validateCoordinates, validateCoordinatesSpec, JsNum.isNaN, JsNum.lt, JsNum.gt,
        Bool.false_or, Bool.or_eq_true, decide_eq_true_eq, if_false]
      split_ifs with h1 h2 h3 h4 h5 h6 <;> simp_all

/-- C7: zodiac mapping is invariant under whole-circle shifts: adding 360·k
to the input longitude leaves the sign, degree, and position unchanged,
because the longitude is first normalized to [0,360). -/
theorem getZodiacSign_period (lon : ℚ) (k : ℤ) :
    getZodiacSign (lon + 360 * k) = getZodiacSign lon := by
  unfold getZodiacSign
  rw [normLon_period]

/-- C9: for every (finite) input longitude the normalized longitude lies in
[0,360), the sign index lies between 0 and 11 so the clamp to the last index
never changes it, and the table lookup is in bounds, returning one of the
twelve canonical sign names. -/
theorem getZodiacSign_index_safe (lon : ℚ) :
    0 ≤ normLon lon ∧ normLon lon < 360 ∧
    0 ≤ ⌊normLon lon / 30⌋ ∧ ⌊normLon lon / 30⌋ ≤ 11 ∧
    min ⌊normLon lon / 30⌋ ((zodiacSigns.length : ℤ) - 1) = ⌊normLon lon / 30⌋ ∧
    ∃ s, (getZodiacSign lon).sign = some s ∧ s ∈ zodiacSigns := by
  have h0 := normLon_nonneg lon
  have h1 := normLon_lt lon
  have hq0 : (0:ℚ) ≤ normLon lon / 30 := by positivity
  have hidx0 : 0 ≤ ⌊normLon lon / 30⌋ := Int.floor_nonneg.mpr hq0
  have hdiv : normLon lon / 30 < ((12 : ℤ) : ℚ) := by
    rw [div_lt_iff (by norm_num : (0:ℚ) < 30)]
    push_cast
    linarith
  have hidx1 : ⌊normLon lon / 30⌋ ≤ 11 := by
    have := Int.floor_lt.mpr hdiv
    omega
  have hlen : (zodiacSigns.length : ℤ) - 1 = 11 := by decide
  have hmin : min ⌊normLon lon / 30⌋ ((zodiacSigns.length : ℤ) - 1) =
      ⌊normLon lon / 30⌋ := by
    rw [hlen]
    exact min_eq_left hidx1
  refine ⟨h0, h1, hidx0, hidx1, hmin, ?_⟩
  have hnat : (⌊normLon lon / 30⌋).toNat < zodiacSigns.length := by
    simp only [zodiacSigns, List.length]
    omega
  refine ⟨zodiacSigns.get ⟨(⌊normLon lon / 30⌋).toNat, hnat⟩, ?_, List.get_mem _ _ hnat⟩
  show jsIndex zodiacSigns (min ⌊normLon lon / 30⌋ ((zodiacSigns.length : ℤ) - 1)) = _
  rw [hmin, jsIndex, if_pos hidx0, List.get?_eq_get hnat]

/-- C3: a present, numeric sun longitude of exactly 0 (with a present,
numeric moon longitude of 90) is rejected by the truthiness guard: the code
throws "Failed to calculate sun or moon position" even though neither
longitude is absent or non-numeric. -/
theorem getMoonPhase_rejects_zero_longitude :
    (JsNum.num (0:ℚ)).isNaN = false ∧ (JsNum.num (90:ℚ)).isNaN = false ∧
    getMoonPhase (some (.num 0)) (some (.num 90)) =
      .error "Failed to calculate sun or moon position" :=
  ⟨rfl, rfl, rfl⟩

/-- C8: for every phase angle in [0,180] the illumination lies between 0 and
100 inclusive, and it is exactly 100 at phase angle 0 and exactly 0 at phase
angle 180. -/
theorem illumination_bounds (θ : ℝ) (h0 : 0 ≤ θ) (h1 : θ ≤ 180) :
    (0 ≤ illumination θ ∧ illumination θ ≤ 100) ∧
    illumination 0 = 100 ∧ illumination 180 = 0 := by
  have hc1 := Real.neg_one_le_cos (θ * Real.pi / 180)
  have hc2 := Real.cos_le_one (θ * Real.pi / 180)
  refine ⟨⟨?_, ?_⟩, ?_, ?_⟩
  · unfold illumination; nlinarith
  · unfold illumination; nlinarith
  · unfold illumination
    rw [zero_mul, zero_div, Real.cos_zero]
    norm_num
  · unfold illumination
    have hpi : (180:ℝ) * Real.pi / 180 = Real.pi := by ring
    rw [hpi, Real.cos_pi]
    norm_num

/-- Witness: the C8 bounds instantiated at phase angle 0. -/
theorem illumination_bounds_witness :
    (0 ≤ illumination 0 ∧ illumination 0 ≤ 100) ∧
    illumination 0 = 100 ∧ illumination 180 = 0 :=
  illumination_bounds 0 (le_refl 0) (by norm_num)

theorem calculateEphemeris_entry {P : Type} (provider : CelestialBody → Option P)
    (body : CelestialBody) :
    (match provider body with
      | some pos => (body, some pos)
      | none => (body, (none : Option P))) = (body, provider body) := by
  cases provider body <;> rfl

/-- C5: when coordinate validation passes, the key list of the aggregator's
result is exactly the requested body list (the full supported set when
`bodies` is omitted or empty), and every requested body for which the
provider has no position entry is present with the explicit absence
marker. -/
theorem calculateEphemeris_keys {P : Type} (provider : CelestialBody → Option P)
    (latitude longitude : JsNum) (bodies : Option (List CelestialBody))
    (res : List (CelestialBody × Option P))
    (h : calculateEphemeris provider latitude longitude bodies = .ok res) :
    res.map Prod.fst = effectiveBodies bodies ∧
    ∀ b ∈ effectiveBodies bodies, provider b = none → (b, (none : Option P)) ∈ res := by
  simp only [calculateEphemeris] at h
  split at h
  · have hres : res = (effectiveBodies bodies).map (fun body =>
        match provider body with
        | some pos => (body, some pos)
        | none => (body, none)) := by
      injection h with h'
      exact h'.symm
    subst hres
    constructor
    · rw [List.map_map]
      have hcomp : (Prod.fst ∘ fun body =>
          match provider body with
          | some pos => (body, some pos)
          | none => (body, (none : Option P))) = id := by
        funext body
        simp only [Function.comp_apply, calculateEphemeris_entry, id_eq]
      rw [hcomp, List.map_id]
    · intro b hb hnone
      have hmem := List.mem_map_of_mem (fun body =>
        match provider body with
        | some pos => (body, some pos)
        | none => (body, (none : Option P))) hb
      simp only [calculateEphemeris_entry] at hmem ⊢
      rwa [hnone] at hmem
  · exact absurd h (by simp)

/-- Witness: C5 applied to a concrete valid request for `[sun]` against a
provider with no positions at all. -/
theorem calculateEphemeris_keys_witness :
    ([(CelestialBody.sun, (none : Option Unit))].map Prod.fst =
        effectiveBodies (some [CelestialBody.sun])) ∧
    ∀ b ∈ effectiveBodies (some [CelestialBody.sun]),
      (fun (_ : CelestialBody) => (none : Option Unit)) b = none →
      (b, (none : Option Unit)) ∈ [(CelestialBody.sun, (none : Option Unit))] :=
  calculateEphemeris_keys (fun _ => none) (.num 0) (.num 0)
    (some [CelestialBody.sun]) _ rfl

theorem sortPair_comm (x y : ℕ) : sortPair x y = sortPair y x := by
  unfold sortPair
  split_ifs with h1 h2 h2
  · have : x = y := le_antisymm h1 h2
    rw [this]
  · rfl
  · rfl
  · omega

theorem pairAspects_view_symm (orb : ℚ) (e1 e2 : ℕ × ℚ) :
    (pairAspects orb e1 e2).map unorderedView =
    (pairAspects orb e2 e1).map unorderedView := by
  unfold pairAspects
  rw [abs_sub_comm e1.2 e2.2]
  rw [List.map_filterMap, List.map_filterMap]
  congr 1
  funext a
  dsimp only
  split_ifs <;>
    first
      | rfl
      | (dsimp only [Option.map, unorderedView]; rw [sortPair_comm])

/-- The multiset of `f`-images of the strictly-ordered pairs of a list is
invariant under permutation of the list, provided `f` ignores pair
orientation. -/
theorem allPairs_flatMap_perm {α β : Type} (f : α × α → List β)
    (hf : ∀ x y, f (x, y) = f (y, x)) :
    ∀ {l1 l2 : List α}, l1.Perm l2 →
      ((allPairs l1).flatMap f).Perm ((allPairs l2).flatMap f) := by
  intro l1 l2 h
  induction h with
  | nil => exact List.Perm.refl _
  | cons x h ih =>
    simp only [allPairs, List.flatMap_append]
    refine List.Perm.append ?_ ih
    rw [List.flatMap_map, List.flatMap_map]
    exact h.flatMap_right _
  | swap x y l =>
    simp only [allPairs, List.map_cons, List.cons_append, List.flatMap_cons,
      List.flatMap_append, List.flatMap_map]
    rw [hf y x]
    refine List.Perm.append_left (f (x, y)) ?_
    rw [← List.append_assoc, ← List.append_assoc]
    exact (List.perm_append_comm).append_right _
  | trans _ _ ih1 ih2 => exact ih1.trans ih2

/-- C6: aspect detection is symmetric — permuting the insertion order of the
body/longitude list leaves the detected unordered body pairs, aspect names,
angles, orbs and exactness flags unchanged (and the under-2-bodies error is
likewise unaffected). -/
theorem calculateAspects_perm_invariant (orb : ℚ) (l1 l2 : List (ℕ × ℚ))
    (h : l1.Perm l2) :
    sameAspectOutcome (calculateAspects orb l1) (calculateAspects orb l2) := by
  have hlen : l1.length = l2.length := h.length_eq
  unfold calculateAspects
  by_cases hlt : l1.length < 2
  · rw [if_pos hlt, if_pos (hlen ▸ hlt)]
    rfl
  · rw [if_neg hlt, if_neg (hlen ▸ hlt)]
    show (((allPairs l1).flatMap fun p => pairAspects orb p.1 p.2).map unorderedView).Perm
      (((allPairs l2).flatMap fun p => pairAspects orb p.1 p.2).map unorderedView)
    rw [List.map_flatMap, List.map_flatMap]
    exact allPairs_flatMap_perm _ (fun x y => pairAspects_view_symm orb x y) h

/-- Witness: C6 at the §8 scenario `{sun: 0°, mars: 90°}` (bodies 0 and 1)
inserted in the two possible orders. -/
theorem calculateAspects_perm_invariant_witness :
    sameAspectOutcome (calculateAspects 8 [(0, 0), (1, 90)])
      (calculateAspects 8 [(1, 90), (0, 0)]) :=
  calculateAspects_perm_invariant 8 [(0, 0), (1, 90)] [(1, 90), (0, 0)]
    (List.Perm.swap _ _ _)

theorem emittedEvents_rising {p alt : ℚ} (idx : ℕ) (az : ℚ)
    (h1 : p < 0) (h2 : 0 < alt) :
    (⟨.rising, idx, round2 alt, round2 az⟩ : Event) ∈ emittedEvents (some p) idx alt az := by
  simp only [emittedEvents, if_pos (And.intro h1 h2), List.mem_singleton]

theorem emittedEvents_setting {p alt : ℚ} (idx : ℕ) (az : ℚ)
    (h1 : 0 < p) (h2 : alt < 0) :
    (⟨.setting, idx, round2 alt, round2 az⟩ : Event) ∈ emittedEvents (some p) idx alt az := by
  have hn : ¬ (p < 0 ∧ 0 < alt) := by
    rintro ⟨hp, -⟩
    exact absurd h1 (not_lt.mpr (le_of_lt hp))
  simp only [emittedEvents, if_neg hn, if_pos (And.intro h1 h2), List.mem_singleton]

theorem emittedEvents_kind {prev : Option ℚ} {idx : ℕ} {alt az : ℚ} {e : Event}
    (h : e ∈ emittedEvents prev idx alt az) :
    e.event = .rising ∨ e.event = .setting := by
  cases prev with
  | none => simp [emittedEvents] at h
  | some p =>
    simp only [emittedEvents] at h
    split_ifs at h <;> simp_all

/-- The scan reaches the first valid sample of the remaining list with the
previous altitude unchanged, and emits its crossing event there. -/
theorem scanGo_first_valid :
    ∀ (samples : List (Option (ℚ × ℚ))) (idx : ℕ) (p : ℚ) (mA : ℚ) (mT : Option ℕ)
      (j : ℕ) (a z : ℚ) (tail : List (ℕ × ℚ × ℚ)),
      validSamples idx samples = (j, a, z) :: tail →
      (p < 0 → 0 < a →
        (⟨.rising, j, round2 a, round2 z⟩ : Event) ∈ (scanGo idx (some p) mA mT samples).events) ∧
      (0 < p → a < 0 →
        (⟨.setting, j, round2 a, round2 z⟩ : Event) ∈ (scanGo idx (some p) mA mT samples).events) := by
  intro samples
  induction samples with
  | nil => intro idx p mA mT j a z tail h; exact absurd h (by simp [validSamples])
  | cons s rest ih =>
    intro idx p mA mT j a z tail h
    cases s with
    | none =>
      simp only [validSamples] at h
      exact ih (idx + 1) p mA mT j a z tail h
    | some pair =>
      obtain ⟨alt, az⟩ := pair
      simp only [validSamples] at h
      injection h with h1 h2
      injection h1 with hj hrest
      injection hrest with ha hz
      subst hj; subst ha; subst hz
      constructor
      · intro hp halt
        show _ ∈ emittedEvents (some p) idx alt az ++ _
        exact List.mem_append_left _ (emittedEvents_rising idx az hp halt)
      · intro hp halt
        show _ ∈ emittedEvents (some p) idx alt az ++ _
        exact List.mem_append_left _ (emittedEvents_setting idx az hp halt)

/-- C2 (amended), generalized over the scan state: for every consecutive pair
of valid samples, a strictly-positive current altitude after a negative
previous one emits `rising` at the current sample, and a negative current
altitude after a strictly-positive previous one emits `setting`. -/
theorem scanGo_crossings :
    ∀ (samples : List (Option (ℚ × ℚ))) (idx : ℕ) (prev : Option ℚ) (mA : ℚ) (mT : Option ℕ)
      (i j : ℕ) (a1 z1 a2 z2 : ℚ),
      ((i, a1, z1), (j, a2, z2)) ∈ consecPairs (validSamples idx samples) →
      (a1 < 0 → 0 < a2 →
        (⟨.rising, j, round2 a2, round2 z2⟩ : Event) ∈ (scanGo idx prev mA mT samples).events) ∧
      (0 < a1 → a2 < 0 →
        (⟨.setting, j, round2 a2, round2 z2⟩ : Event) ∈ (scanGo idx prev mA mT samples).events) := by
  intro samples
  induction samples with
  | nil =>
    intro idx prev mA mT i j a1 z1 a2 z2 h
    exact absurd h (by simp [validSamples, consecPairs])
  | cons s rest ih =>
    intro idx prev mA mT i j a1 z1 a2 z2 h
    cases s with
    | none =>
      simp only [validSamples] at h
      exact ih (idx + 1) prev mA mT i j a1 z1 a2 z2 h
    | some pair =>
      obtain ⟨alt, az⟩ := pair
      simp only [validSamples] at h
      rcases hV : validSamples (idx + 1) rest with _ | ⟨⟨j0, a0, z0⟩, V'⟩
      · rw [hV] at h
        exact absurd h (by simp [consecPairs])
      · rw [hV] at h
        have hcp : consecPairs ((idx, alt, az) :: (j0, a0, z0) :: V') =
            ((idx, alt, az), (j0, a0, z0)) :: consecPairs ((j0, a0, z0) :: V') := rfl
        rw [hcp] at h
        rcases List.mem_cons.mp h with hhead | htail
        · injection hhead with hfst hsnd
          injection hfst with hi h1'
          injection h1' with ha1 hz1
          injection hsnd with hj h2'
          injection h2' with ha2 hz2
          subst hi; subst ha1; subst hz1; subst hj; subst ha2; subst hz2
          have hfv := scanGo_first_valid rest (i + 1) a1
            (if a1 > mA then a1 else mA) (if a1 > mA then some i else mT)
            j a2 z2 V' hV
          constructor
          · intro hp halt
            show _ ∈ emittedEvents prev i a1 z1 ++ _
            exact List.mem_append_right _ (hfv.1 hp halt)
          · intro hp halt
            show _ ∈ emittedEvents prev i a1 z1 ++ _
            exact List.mem_append_right _ (hfv.2 hp halt)
        · have hrec := ih (idx + 1) (some alt)
            (if alt > mA then alt else mA) (if alt > mA then some idx else mT)
            i j a1 z1 a2 z2 (by rw [hV]; exact htail)
          constructor
          · intro hp halt
            show _ ∈ emittedEvents prev idx alt az ++ _
            exact List.mem_append_right _ (hrec.1 hp halt)
          · intro hp halt
            show _ ∈ emittedEvents prev idx alt az ++ _
            exact List.mem_append_right _ (hrec.2 hp halt)

/-- C2 (amended): in the Daily Event Scanner, for every consecutive pair of
valid samples, a `rising` event is emitted at the current sample's
time/altitude/azimuth whenever the altitude changes from negative to
strictly positive, and a `setting` event whenever it changes from strictly
positive to negative. -/
theorem getDailyEvents_crossings (samples : List (Option (ℚ × ℚ)))
    (i j : ℕ) (a1 z1 a2 z2 : ℚ)
    (h : ((i, a1, z1), (j, a2, z2)) ∈ consecPairs (validSamples 0 samples)) :
    (a1 < 0 → 0 < a2 →
      (⟨.rising, j, round2 a2, round2 z2⟩ : Event) ∈ (scanGo 0 none (-90) none samples).events) ∧
    (0 < a1 → a2 < 0 →
      (⟨.setting, j, round2 a2, round2 z2⟩ : Event) ∈ (scanGo 0 none (-90) none samples).events) :=
  scanGo_crossings samples 0 none (-90) none i j a1 z1 a2 z2 h

/-- Witness: the amended C2 on a two-sample day whose altitude goes from
-1 to 1: the scan emits rising at the second sample. -/
theorem getDailyEvents_crossings_witness :
    ((-1 : ℚ) < 0 → (0 : ℚ) < 1 →
      (⟨.rising, 1, round2 1, round2 20⟩ : Event) ∈
        (scanGo 0 none (-90) none [some (-1, 10), some (1, 20)]).events) ∧
    ((0 : ℚ) < -1 → (1 : ℚ) < 0 →
      (⟨.setting, 1, round2 1, round2 20⟩ : Event) ∈
        (scanGo 0 none (-90) none [some (-1, 10), some (1, 20)]).events) :=
  getDailyEvents_crossings [some (-1, 10), some (1, 20)] 0 1 (-1) 10 1 20 (by decide)

/-- C2 counterexample: the claim as stated (rising on a change from negative
to non-negative) fails on a day whose altitude goes from -1 to exactly 0:
the pair is consecutive and valid and the change is negative-to-non-negative,
yet the scan emits nothing at all. -/
theorem rising_on_nonneg_refuted :
    ((((0 : ℕ), (-1 : ℚ), (0 : ℚ)), ((1 : ℕ), (0 : ℚ), (0 : ℚ))) ∈
      consecPairs (validSamples 0 [some (-1, 0), some (0, 0)])) ∧
    (-1 : ℚ) < 0 ∧ (0 : ℚ) ≤ 0 ∧
    (scanGo 0 none (-90) none [some (-1, 0), some (0, 0)]).events = [] := by
  refine ⟨by decide, by norm_num, le_refl 0, ?_⟩
  decide

/-- Every event emitted by the sampling loop is a horizon crossing. -/
theorem scanGo_events_kind :
    ∀ (samples : List (Option (ℚ × ℚ))) (idx : ℕ) (prev : Option ℚ) (mA : ℚ)
      (mT : Option ℕ) (e : Event), e ∈ (scanGo idx prev mA mT samples).events →
      e.event = .rising ∨ e.event = .setting := by
  intro samples
  induction samples with
  | nil => intro idx prev mA mT e he; simp [scanGo] at he
  | cons s rest ih =>
    intro idx prev mA mT e he
    cases s with
    | none => exact ih (idx + 1) prev mA mT e he
    | some pair =>
      obtain ⟨alt, az⟩ := pair
      rcases List.mem_append.mp he with hem | hrec
      · exact emittedEvents_kind hem
      · exact ih (idx + 1) (some alt) _ _ e hrec

/-- C10: the returned events list of the Daily Event Scanner contains at most
one culmination event, whatever the altitude profile of the sampled day. -/
theorem getDailyEvents_culmination_unique (samples : List (Option (ℚ × ℚ))) :
    ((getDailyEvents samples).countP fun e => decide (e.event = EventKind.culmination)) ≤ 1 := by
  set p : Event → Bool := fun e => decide (e.event = EventKind.culmination) with hp
  set r := scanGo 0 none (-90) none samples with hr
  have h0 : r.events.countP p = 0 := by
    rw [List.countP_eq_zero]
    intro e he
    rcases scanGo_events_kind samples 0 none (-90) none e he with h | h <;>
      simp [hp, h]
  have hc : (culminationEvents r).countP p ≤ 1 := by
    unfold culminationEvents
    cases r.maxAltitudeTime with
    | none => simp
    | some t =>
      split_ifs
      · simp [hp, List.countP_cons]
      · simp
  show (((r.events ++ culminationEvents r).mergeSort
      (fun a b => decide (a.time ≤ b.time))).take 6).countP p ≤ 1
  calc (((r.events ++ culminationEvents r).mergeSort
        (fun a b => decide (a.time ≤ b.time))).take 6).countP p
      ≤ ((r.events ++ culminationEvents r).mergeSort
        (fun a b => decide (a.time ≤ b.time))).countP p :=
        (List.take_sublist _ _).countP_le p
    _ = (r.events ++ culminationEvents r).countP p :=
        (List.mergeSort_perm _ _).countP_eq p
    _ = r.events.countP p + (culminationEvents r).countP p := List.countP_append _ _ _
    _ ≤ 1 := by rw [h0]; simpa using hc

end MysticML
